import Mathlib

/-
Verification of the Focus Timer engine (src/core/timer_engine.py and
src/core/models.py), shallowly embedded: machine integers are Int (Python
ints are unbounded), wall-clock reads are explicit `now` arguments, the
Qt signal emissions are an explicit event list, and the storage
collaborator (settings snapshot, session table with auto-assigned ids) is
an explicit World value threaded through every operation.
-/

namespace FocusTimer

/-- TimerState enum from models.py. -/
inductive TimerState where
  | IDLE
  | FOCUS
  | BREAK
  | PAUSED
deriving DecidableEq, Repr

/-- Session dataclass from models.py (status holds the SessionStatus
enum value strings "completed" / "interrupted"). -/
structure Session where
  id : Option Int := none
  group_id : Int := 0
  start_ts : Int := 0
  end_ts : Int := 0
  planned_seconds : Int := 0
  actual_seconds : Int := 0
  status : String := "completed"
  is_break : Bool := false
deriving DecidableEq, Repr

/-- AppSettings dataclass from models.py (only the fields the engine
reads). -/
structure AppSettings where
  auto_start_break : Bool := true
  auto_start_focus : Bool := false
  log_breaks : Bool := false
deriving DecidableEq, Repr

/-- TimerContext dataclass from models.py. -/
structure TimerContext where
  state : TimerState := TimerState.IDLE
  remaining_seconds : Int := 0
  total_seconds : Int := 0
  current_group_id : Option Int := none
  focus_minutes : Int := 25
  break_minutes : Int := 5
  session_start_ts : Int := 0
  pause_start_ts : Int := 0
  total_paused_seconds : Int := 0
deriving DecidableEq, Repr

/-- The mutable fields of the TimerEngine object: the context plus the
private attributes _state_before_pause, the Qt timer activity flag, and
the _current_session_start / _current_planned_seconds trackers. -/
structure Engine where
  ctx : TimerContext := {}
  state_before_pause : Option TimerState := none
  qt_timer_active : Bool := false
  current_session_start : Int := 0
  current_planned_seconds : Int := 0
deriving DecidableEq, Repr

/-- One observable emission of the engine: the Qt signals tick,
phase_changed and session_completed, in emission order. -/
inductive Event where
  | tick (c : TimerContext)
  | phase_changed (old new : TimerState)
  | session_completed (s : Session)
deriving DecidableEq, Repr

/-- The storage collaborator: the current settings row, the
auto-increment id counter, and the sessions table in insertion order. -/
structure World where
  settings : AppSettings := {}
  next_id : Int := 1
  saved : List Session := []
deriving DecidableEq, Repr

/-- Storage.create_session: inserts the record and returns the assigned
id. -/
def create_session (w : World) (s : Session) : Int × World :=
  (w.next_id,
    { w with
      next_id := w.next_id + 1,
      saved := w.saved ++ [{ s with id := some w.next_id }] })

/-- TimerEngine._save_session. -/
def save_session (e : Engine) (w : World) (now : Int)
    (completed is_break : Bool) : Engine × World × List Event :=
  let actual0 : Int :=
    if e.ctx.pause_start_ts > 0 then
      e.ctx.pause_start_ts - e.current_session_start -
        e.ctx.total_paused_seconds
    else
      now - e.current_session_start - e.ctx.total_paused_seconds
  let actual := max 0 (min actual0 e.current_planned_seconds)
  let s : Session :=
    { group_id := e.ctx.current_group_id.getD 0,
      start_ts := e.current_session_start,
      end_ts := now,
      planned_seconds := e.current_planned_seconds,
      actual_seconds := actual,
      status := if completed then "completed" else "interrupted",
      is_break := is_break }
  let r := create_session w s
  (e, r.2, [Event.session_completed { s with id := some r.1 }])

/-- TimerEngine._reset_to_idle. -/
def reset_to_idle (e : Engine) : Engine :=
  { e with
    ctx := { e.ctx with
      state := TimerState.IDLE,
      remaining_seconds := 0,
      total_seconds := 0,
      session_start_ts := 0,
      pause_start_ts := 0,
      total_paused_seconds := 0 },
    state_before_pause := none,
    current_session_start := 0,
    current_planned_seconds := 0 }

/-- TimerEngine._stop_and_save. -/
def stop_and_save (e : Engine) (w : World) (now : Int)
    (interrupted : Bool) : Engine × World × List Event :=
  let e1 : Engine := { e with qt_timer_active := false }
  let was_focus : Bool :=
    e1.ctx.state == TimerState.FOCUS ||
      (e1.ctx.state == TimerState.PAUSED &&
        e1.state_before_pause == some TimerState.FOCUS)
  let was_break : Bool :=
    e1.ctx.state == TimerState.BREAK ||
      (e1.ctx.state == TimerState.PAUSED &&
        e1.state_before_pause == some TimerState.BREAK)
  let old_state := e1.ctx.state
  let r :=
    if was_focus then save_session e1 w now (!interrupted) false
    else if was_break then
      if w.settings.log_breaks then save_session e1 w now (!interrupted) true
      else (e1, w, [])
    else (e1, w, [])
  let e2 := reset_to_idle r.1
  (e2, r.2.1,
    r.2.2 ++ [Event.phase_changed old_state TimerState.IDLE, Event.tick e2.ctx])

/-- TimerEngine.start_focus. -/
def start_focus (e : Engine) (w : World) (now : Int)
    (focus_minutes break_minutes : Int) (group_id : Option Int) :
    Engine × World × List Event :=
  let r :=
    if e.ctx.state ≠ TimerState.IDLE then stop_and_save e w now true
    else (e, w, ([] : List Event))
  let e1 := r.1
  let old_state := e1.ctx.state
  let c : TimerContext :=
    { e1.ctx with
      state := TimerState.FOCUS,
      focus_minutes := focus_minutes,
      break_minutes := break_minutes,
      current_group_id := group_id,
      total_seconds := focus_minutes * 60,
      remaining_seconds := focus_minutes * 60,
      session_start_ts := now,
      total_paused_seconds := 0 }
  let e2 : Engine :=
    { e1 with
      ctx := c,
      current_session_start := now,
      current_planned_seconds := c.total_seconds,
      qt_timer_active := true }
  (e2, r.2.1,
    r.2.2 ++ [Event.phase_changed old_state TimerState.FOCUS, Event.tick e2.ctx])

/-- TimerEngine.start_break. -/
def start_break (e : Engine) (w : World) (now : Int) :
    Engine × World × List Event :=
  let old_state := e.ctx.state
  let r :=
    if old_state = TimerState.FOCUS then save_session e w now true false
    else (e, w, ([] : List Event))
  let e1 := r.1
  let c : TimerContext :=
    { e1.ctx with
      state := TimerState.BREAK,
      total_seconds := e1.ctx.break_minutes * 60,
      remaining_seconds := e1.ctx.break_minutes * 60,
      session_start_ts := now,
      total_paused_seconds := 0 }
  let e2 : Engine :=
    { e1 with
      ctx := c,
      current_session_start := now,
      current_planned_seconds := c.total_seconds,
      qt_timer_active := true }
  (e2, r.2.1,
    r.2.2 ++ [Event.phase_changed old_state TimerState.BREAK, Event.tick e2.ctx])

/-- TimerEngine.pause (touches no storage, hence no World argument). -/
def pause (e : Engine) (now : Int) : Engine × List Event :=
  if e.ctx.state = TimerState.FOCUS ∨ e.ctx.state = TimerState.BREAK then
    let old_state := e.ctx.state
    let e1 : Engine :=
      { e with
        state_before_pause := some old_state,
        ctx := { e.ctx with
          state := TimerState.PAUSED,
          pause_start_ts := now },
        qt_timer_active := false }
    (e1, [Event.phase_changed old_state TimerState.PAUSED, Event.tick e1.ctx])
  else (e, [])

/-- TimerEngine.resume. -/
def resume (e : Engine) (now : Int) : Engine × List Event :=
  match e.ctx.state, e.state_before_pause with
  | TimerState.PAUSED, some prev =>
    let pause_duration := now - e.ctx.pause_start_ts
    let e1 : Engine :=
      { e with
        ctx := { e.ctx with
          total_paused_seconds :=
            e.ctx.total_paused_seconds + pause_duration,
          state := prev,
          pause_start_ts := 0 },
        state_before_pause := none,
        qt_timer_active := true }
    (e1, [Event.phase_changed TimerState.PAUSED prev, Event.tick e1.ctx])
  | _, _ => (e, [])

/-- TimerEngine.stop. -/
def stop (e : Engine) (w : World) (now : Int) :
    Engine × World × List Event :=
  if e.ctx.state = TimerState.IDLE then (e, w, [])
  else stop_and_save e w now true

/-- TimerEngine.skip_break. -/
def skip_break (e : Engine) (w : World) (now : Int) :
    Engine × World × List Event :=
  if e.ctx.state ≠ TimerState.BREAK then (e, w, [])
  else
    let old_state := e.ctx.state
    let e1 : Engine := { e with qt_timer_active := false }
    let r :=
      if w.settings.log_breaks then save_session e1 w now false true
      else (e1, w, ([] : List Event))
    let e2 := reset_to_idle r.1
    (e2, r.2.1,
      r.2.2 ++ [Event.phase_changed old_state TimerState.IDLE, Event.tick e2.ctx])

/-- TimerEngine._on_phase_complete. -/
def on_phase_complete (e : Engine) (w : World) (now : Int) :
    Engine × World × List Event :=
  let e0 : Engine := { e with qt_timer_active := false }
  if e0.ctx.state = TimerState.FOCUS then
    let r1 := save_session e0 w now true false
    if w.settings.auto_start_break then
      let r2 := start_break r1.1 r1.2.1 now
      (r2.1, r2.2.1, r1.2.2 ++ r2.2.2)
    else
      let old_state := r1.1.ctx.state
      let e2 := reset_to_idle r1.1
      (e2, r1.2.1,
        r1.2.2 ++ [Event.phase_changed old_state TimerState.IDLE])
  else if e0.ctx.state = TimerState.BREAK then
    let r1 :=
      if w.settings.log_breaks then save_session e0 w now true true
      else (e0, w, ([] : List Event))
    if w.settings.auto_start_focus then
      let r2 := start_focus r1.1 r1.2.1 now r1.1.ctx.focus_minutes
        r1.1.ctx.break_minutes r1.1.ctx.current_group_id
      (r2.1, r2.2.1, r1.2.2 ++ r2.2.2)
    else
      let old_state := r1.1.ctx.state
      let e2 := reset_to_idle r1.1
      (e2, r1.2.1,
        r1.2.2 ++ [Event.phase_changed old_state TimerState.IDLE])
  else (e0, w, [])

/-- TimerEngine._on_tick: the scheduler wake-up. -/
def on_tick (e : Engine) (w : World) (now : Int) :
    Engine × World × List Event :=
  if e.ctx.state = TimerState.FOCUS ∨ e.ctx.state = TimerState.BREAK then
    let elapsed := now - e.ctx.session_start_ts - e.ctx.total_paused_seconds
    let e1 : Engine :=
      { e with ctx := { e.ctx with
          remaining_seconds := max 0 (e.ctx.total_seconds - elapsed) } }
    if e1.ctx.remaining_seconds ≤ 0 then
      let r := on_phase_complete e1 w now
      (r.1, r.2.1, Event.tick e1.ctx :: r.2.2)
    else (e1, w, [Event.tick e1.ctx])
  else (e, w, [])

/-- TimerEngine.cleanup. -/
def cleanup (e : Engine) (w : World) (now : Int) :
    Engine × World × List Event :=
  if e.ctx.state = TimerState.FOCUS ∨ e.ctx.state = TimerState.BREAK ∨
      e.ctx.state = TimerState.PAUSED then
    let r := stop_and_save e w now true
    ({ r.1 with qt_timer_active := false }, r.2.1, r.2.2)
  else ({ e with qt_timer_active := false }, w, [])

/-- One external command into the engine, or one scheduler wake-up. -/
inductive Cmd where
  | start_focus (focus_minutes break_minutes : Int) (group_id : Option Int)
  | start_break
  | pause
  | resume
  | stop
  | skip_break
  | cleanup
  | tick
deriving DecidableEq, Repr

/-- One step of the environment: the wall-clock second at which the call
arrives, the settings row in storage at that moment, and the command. -/
structure Input where
  now : Int
  settings : AppSettings
  cmd : Cmd
deriving DecidableEq, Repr

/-- Dispatch one input to the engine (the settings row is written into
the world first, modelling that the engine reads settings fresh from
storage at each decision point). -/
def step (e : Engine) (w : World) (i : Input) :
    Engine × World × List Event :=
  let w1 : World := { w with settings := i.settings }
  match i.cmd with
  | Cmd.start_focus f b g => start_focus e w1 i.now f b g
  | Cmd.start_break => start_break e w1 i.now
  | Cmd.pause =>
    let r := pause e i.now
    (r.1, w1, r.2)
  | Cmd.resume =>
    let r := resume e i.now
    (r.1, w1, r.2)
  | Cmd.stop => stop e w1 i.now
  | Cmd.skip_break => skip_break e w1 i.now
  | Cmd.cleanup => cleanup e w1 i.now
  | Cmd.tick => on_tick e w1 i.now

/-- Run a whole input trace, accumulating the emitted events. -/
def run (e : Engine) (w : World) : List Input → Engine × World × List Event
  | [] => (e, w, [])
  | i :: rest =>
    let r1 := step e w i
    let r2 := run r1.1 r1.2.1 rest
    (r2.1, r2.2.1, r1.2.2 ++ r2.2.2)

/-- The engine as constructed at application start. -/
def engine0 : Engine := {}

/-- A monotone wall clock: each input arrives no earlier than the time
bound t, and the bound advances with each input. -/
def chron (t : Int) : List Input → Prop
  | [] => True
  | i :: rest => t ≤ i.now ∧ chron i.now rest

instance chronDecidable (t : Int) (l : List Input) : Decidable (chron t l) := by
  induction l generalizing t with
  | nil => exact isTrue trivial
  | cons i rest ih => exact @instDecidableAnd _ _ inferInstance (ih i.now)

/-- The clock bound after a trace has been consumed. -/
def lastTime (t : Int) : List Input → Int
  | [] => t
  | i :: rest => lastTime i.now rest

/-- A well-formed input: start_focus is only issued with the at-least-one
minute durations the spec requires of focus_minutes and break_minutes. -/
def ValidCmd : Cmd → Prop
  | Cmd.start_focus f b _ => 1 ≤ f ∧ 1 ≤ b
  | _ => True

instance validCmdDecidable (c : Cmd) : Decidable (ValidCmd c) := by
  cases c <;> simp only [ValidCmd] <;> infer_instance

/-- The save helper never mutates the engine object itself. -/
theorem save_session_fst (e : Engine) (w : World) (now : Int)
    (completed is_break : Bool) :
    (save_session e w now completed is_break).1 = e := rfl

/-- Resetting to idle keeps the category identifier. -/
theorem reset_to_idle_group (e : Engine) :
    (reset_to_idle e).ctx.current_group_id = e.ctx.current_group_id := rfl

/-- The manual break transition keeps the category identifier. -/
theorem start_break_group (e : Engine) (w : World) (now : Int) :
    (start_break e w now).1.ctx.current_group_id =
      e.ctx.current_group_id := by
  simp only [start_break]
  split_ifs <;> rfl

/-- Starting focus installs exactly the category passed in. -/
theorem start_focus_group (e : Engine) (w : World) (now : Int)
    (f b : Int) (g : Option Int) :
    (start_focus e w now f b g).1.ctx.current_group_id = g := by
  simp only [start_focus]

/-- C6: Commands issued in a guard-violating state are silent no-ops:
pause while not in Focus/Break, resume while not Paused, skip_break while
not in Break, and stop while Idle leave the engine (so the whole
TimerContext) unchanged, persist nothing and emit no notification. -/
theorem guard_violations_are_noops (e : Engine) (w : World) (now : Int) :
    (e.ctx.state ≠ TimerState.FOCUS → e.ctx.state ≠ TimerState.BREAK →
      pause e now = (e, []))
    ∧ (e.ctx.state ≠ TimerState.PAUSED → resume e now = (e, []))
    ∧ (e.ctx.state ≠ TimerState.BREAK → skip_break e w now = (e, w, []))
    ∧ (e.ctx.state = TimerState.IDLE → stop e w now = (e, w, [])) := by
  refine ⟨?_, ?_, ?_, ?_⟩
  · intro h1 h2
    unfold pause
    rw [if_neg]
    rintro (h | h) <;> contradiction
  · intro h
    unfold resume
    cases hs : e.ctx.state <;> cases hb : e.state_before_pause <;>
      simp_all
  · intro h
    unfold skip_break
    rw [if_pos h]
  · intro h
    unfold stop
    rw [if_pos h]

/-- C6 witness: in the freshly constructed (Idle) engine each of the four
guard-violating commands is a silent no-op. -/
theorem guard_violations_are_noops_witness :
    pause engine0 5 = (engine0, [])
    ∧ resume engine0 5 = (engine0, [])
    ∧ skip_break engine0 {} 5 = (engine0, {}, [])
    ∧ stop engine0 {} 5 = (engine0, {}, []) :=
  ⟨(guard_violations_are_noops engine0 {} 5).1 (by decide) (by decide),
   (guard_violations_are_noops engine0 {} 5).2.1 (by decide),
   (guard_violations_are_noops engine0 {} 5).2.2.1 (by decide),
   (guard_violations_are_noops engine0 {} 5).2.2.2 (by decide)⟩

/-- C9: the category identifier is set at focus start and is left
unchanged by pause, resume, start_break (manual or as invoked by the
phase-completion handler) and by the phase-completion handler itself. -/
theorem category_id_persists (e : Engine) (w : World) (now : Int)
    (f b : Int) (g : Option Int) :
    (start_focus e w now f b g).1.ctx.current_group_id = g
    ∧ (pause e now).1.ctx.current_group_id = e.ctx.current_group_id
    ∧ (resume e now).1.ctx.current_group_id = e.ctx.current_group_id
    ∧ (start_break e w now).1.ctx.current_group_id = e.ctx.current_group_id
    ∧ (on_phase_complete e w now).1.ctx.current_group_id =
        e.ctx.current_group_id := by
  refine ⟨start_focus_group e w now f b g, ?_, ?_,
    start_break_group e w now, ?_⟩
  · simp only [pause]
    split_ifs <;> rfl
  · simp only [resume]
    cases hs : e.ctx.state <;> cases hb : e.state_before_pause <;> rfl
  · simp only [on_phase_complete]
    split_ifs <;>
      simp [start_break_group, start_focus_group, save_session_fst,
        reset_to_idle_group]

/-- C10: a record saved for a session with no category carries
group_id 0, and the session_completed event carries exactly the persisted
record, including the id the storage assigned on insertion. -/
theorem uncategorized_save_coalesces (e : Engine) (w : World) (now : Int)
    (completed is_break : Bool) (h : e.ctx.current_group_id = none) :
    ∃ rec,
      (save_session e w now completed is_break).2.1.saved = w.saved ++ [rec]
      ∧ rec.group_id = 0
      ∧ rec.id = some w.next_id
      ∧ (save_session e w now completed is_break).2.2 =
          [Event.session_completed rec] := by
  simp only [save_session, create_session, h]
  exact ⟨_, rfl, rfl, rfl, rfl⟩

/-- C10 witness: saving from the fresh engine (category none) into the
fresh storage appends one record with group_id 0 and id 1 and emits it. -/
theorem uncategorized_save_coalesces_witness :
    engine0.ctx.current_group_id = none
    ∧ ∃ rec,
        (save_session engine0 {} 9 true false).2.1.saved =
          ([] : List Session) ++ [rec]
        ∧ rec.group_id = 0
        ∧ rec.id = some 1
        ∧ (save_session engine0 {} 9 true false).2.2 =
            [Event.session_completed rec] :=
  ⟨rfl, uncategorized_save_coalesces engine0 {} 9 true false rfl⟩

/-- C2 (amended): at save time the code branches on pause_start_ts > 0,
not on the current state being Paused; under that condition the claimed
formulas and the clamping to the planned duration hold, with the session
start tracker agreeing with the context (as every operation keeps it). -/
theorem save_session_actual_seconds (e : Engine) (w : World) (now : Int)
    (completed is_break : Bool)
    (hss : e.current_session_start = e.ctx.session_start_ts)
    (hpl : 0 ≤ e.current_planned_seconds) :
    ∃ rec,
      (save_session e w now completed is_break).2.1.saved = w.saved ++ [rec]
      ∧ rec.planned_seconds = e.current_planned_seconds
      ∧ rec.actual_seconds =
          (if e.ctx.pause_start_ts > 0 then
            max 0 (min (e.ctx.pause_start_ts - e.ctx.session_start_ts -
              e.ctx.total_paused_seconds) e.current_planned_seconds)
          else
            max 0 (min (now - e.ctx.session_start_ts -
              e.ctx.total_paused_seconds) e.current_planned_seconds))
      ∧ 0 ≤ rec.actual_seconds
      ∧ rec.actual_seconds ≤ rec.planned_seconds := by
  simp only [save_session, create_session]
  refine ⟨_, rfl, rfl, ?_, ?_, ?_⟩
  · split_ifs <;> simp [hss]
  · split_ifs <;> dsimp only <;> omega
  · split_ifs <;> dsimp only <;> omega

/-- C2 witness: a concrete unpaused save clamps now minus start to the
planned duration. -/
theorem save_session_actual_seconds_witness :
    (engine0.current_session_start = engine0.ctx.session_start_ts
      ∧ (0 : Int) ≤ engine0.current_planned_seconds)
    ∧ ∃ rec,
        (save_session engine0 {} 9 true false).2.1.saved =
          ([] : List Session) ++ [rec]
        ∧ rec.planned_seconds = engine0.current_planned_seconds
        ∧ rec.actual_seconds =
            (if engine0.ctx.pause_start_ts > 0 then
              max 0 (min (engine0.ctx.pause_start_ts -
                engine0.ctx.session_start_ts -
                engine0.ctx.total_paused_seconds)
                engine0.current_planned_seconds)
            else
              max 0 (min ((9 : Int) - engine0.ctx.session_start_ts -
                engine0.ctx.total_paused_seconds)
                engine0.current_planned_seconds))
        ∧ 0 ≤ rec.actual_seconds
        ∧ rec.actual_seconds ≤ rec.planned_seconds :=
  ⟨⟨rfl, by decide⟩,
    save_session_actual_seconds engine0 {} 9 true false rfl (by decide)⟩

/-- Settings row with break logging switched on. -/
def logSettings : AppSettings := { log_breaks := true }

/-- A trace that reaches Break with a stale pause_start_ts: focus is
started, paused, then start_break is invoked while Paused, then stop. -/
def staleTrace : List Input :=
  [ { now := 100, settings := logSettings,
      cmd := Cmd.start_focus 1 1 none },
    { now := 110, settings := logSettings, cmd := Cmd.pause },
    { now := 120, settings := logSettings, cmd := Cmd.start_break },
    { now := 130, settings := logSettings, cmd := Cmd.stop } ]

/-- C2 counterexample: after start_break while Paused, the engine is in
Break (not Paused) with session_start_ts 120, no accumulated pause and a
planned minute, yet the record saved by stop at time 130 has
actual_seconds 0, where the claim as stated requires the not-paused
formula max 0 (min (130 - 120 - 0) 60) = 10. -/
theorem actual_seconds_claim_counterexample :
    (run engine0 {} (staleTrace.take 3)).1.ctx.state = TimerState.BREAK
    ∧ (run engine0 {} (staleTrace.take 3)).1.ctx.session_start_ts = 120
    ∧ (run engine0 {} (staleTrace.take 3)).1.ctx.total_paused_seconds = 0
    ∧ (run engine0 {} (staleTrace.take 3)).1.current_planned_seconds = 60
    ∧ (run engine0 {} staleTrace).2.1.saved.map Session.actual_seconds = [0]
    ∧ ¬ ((0 : Int) = max 0 (min (130 - 120 - 0) 60)) := by
  decide

/-- Stopping always lands the engine object in the idle reset, whatever
was saved on the way. -/
theorem stop_and_save_fst (e : Engine) (w : World) (now : Int)
    (interrupted : Bool) :
    (stop_and_save e w now interrupted).1 =
      reset_to_idle { e with qt_timer_active := false } := by
  simp only [stop_and_save]
  split_ifs <;> rfl

/-- The claimed invariant of C8: pause_start_ts is 0 whenever the engine
is not Paused. -/
def PauseTsInv (e : Engine) : Prop :=
  e.ctx.state ≠ TimerState.PAUSED → e.ctx.pause_start_ts = 0

instance pauseTsInvDecidable (e : Engine) : Decidable (PauseTsInv e) := by
  unfold PauseTsInv
  infer_instance

theorem pts_reset_to_idle (e : Engine) : PauseTsInv (reset_to_idle e) :=
  fun _ => rfl

theorem pts_start_focus (e : Engine) (w : World) (now : Int) (f b : Int)
    (g : Option Int) (h0 : PauseTsInv e) :
    PauseTsInv (start_focus e w now f b g).1 := by
  intro _
  simp only [start_focus]
  split_ifs with hI
  · rw [stop_and_save_fst]
    rfl
  · refine h0 ?_
    simp only [ne_eq, not_not] at hI
    rw [hI]
    decide

theorem pts_start_break (e : Engine) (w : World) (now : Int)
    (h0 : PauseTsInv e) (hs : e.ctx.state ≠ TimerState.PAUSED) :
    PauseTsInv (start_break e w now).1 := by
  intro _
  simp only [start_break]
  split_ifs <;> exact h0 hs

theorem pts_on_phase_complete (e : Engine) (w : World) (now : Int)
    (h0 : PauseTsInv e) :
    PauseTsInv (on_phase_complete e w now).1 := by
  simp only [on_phase_complete]
  split_ifs with h1 h2 <;>
    first
      | exact pts_reset_to_idle _
      | exact h0
      | exact pts_start_focus _ _ _ _ _ _ h0
      | exact pts_start_break _ _ _ h0 (fun hp => by
          have hp2 : e.ctx.state = TimerState.PAUSED := hp
          rw [h1] at hp2
          exact absurd hp2 (by decide))

theorem pts_on_tick (e : Engine) (w : World) (now : Int)
    (h0 : PauseTsInv e) :
    PauseTsInv (on_tick e w now).1 := by
  simp only [on_tick]
  split_ifs with h1 h2
  · exact pts_on_phase_complete _ _ _ h0
  · exact h0
  · exact h0

/-- Pause always lands in Paused or is a no-op, so it preserves the
invariant. -/
theorem pts_pause (e : Engine) (now : Int) (h0 : PauseTsInv e) :
    PauseTsInv (pause e now).1 := by
  simp only [pause]
  split_ifs
  · exact fun hs => absurd rfl hs
  · exact h0

theorem pts_resume (e : Engine) (now : Int) (h0 : PauseTsInv e) :
    PauseTsInv (resume e now).1 := by
  unfold resume
  cases hs : e.ctx.state <;> cases hb : e.state_before_pause <;>
    dsimp only <;> first | exact h0 | exact fun _ => rfl

theorem pts_stop (e : Engine) (w : World) (now : Int) (h0 : PauseTsInv e) :
    PauseTsInv (stop e w now).1 := by
  simp only [stop]
  split_ifs
  · exact h0
  · rw [stop_and_save_fst]
    exact pts_reset_to_idle _

theorem pts_skip (e : Engine) (w : World) (now : Int) (h0 : PauseTsInv e) :
    PauseTsInv (skip_break e w now).1 := by
  simp only [skip_break]
  split_ifs <;> first | exact h0 | exact pts_reset_to_idle _

theorem pts_cleanup (e : Engine) (w : World) (now : Int)
    (h0 : PauseTsInv e) :
    PauseTsInv (cleanup e w now).1 := by
  simp only [cleanup]
  split_ifs
  · have h2 := pts_reset_to_idle { e with qt_timer_active := false }
    rw [← stop_and_save_fst e w now true] at h2
    exact fun hn => h2 hn
  · exact fun hn => h0 hn

/-- C8 (amended): the invariant that pause_start_ts is 0 outside of
Paused is preserved by every public operation and by the scheduler tick,
EXCEPT by start_break invoked while Paused, which moves to Break but
leaves the pause mark in place. Every step whose command is not a
start_break issued from Paused preserves the invariant. -/
theorem pause_ts_invariant_step (e : Engine) (w : World) (i : Input)
    (hinv : PauseTsInv e)
    (hexc : i.cmd = Cmd.start_break → e.ctx.state ≠ TimerState.PAUSED) :
    PauseTsInv (step e w i).1 := by
  cases hc : i.cmd with
  | start_focus f b g =>
    simp only [step, hc]
    exact pts_start_focus _ _ _ _ _ _ hinv
  | start_break =>
    simp only [step, hc]
    exact pts_start_break _ _ _ hinv (hexc hc)
  | pause =>
    simp only [step, hc]
    exact pts_pause _ _ hinv
  | resume =>
    simp only [step, hc]
    exact pts_resume _ _ hinv
  | stop =>
    simp only [step, hc]
    exact pts_stop _ _ _ hinv
  | skip_break =>
    simp only [step, hc]
    exact pts_skip _ _ _ hinv
  | cleanup =>
    simp only [step, hc]
    exact pts_cleanup _ _ _ hinv
  | tick =>
    simp only [step, hc]
    exact pts_on_tick _ _ _ hinv

/-- A pause command arriving at time 5 with default settings. -/
def pauseInput5 : Input := { now := 5, settings := {}, cmd := Cmd.pause }

/-- C8 witness: from the fresh engine, a pause command at time 5
preserves the invariant. -/
theorem pause_ts_invariant_step_witness :
    PauseTsInv engine0 ∧ PauseTsInv (step engine0 {} pauseInput5).1 :=
  ⟨by decide,
    pause_ts_invariant_step engine0 {} pauseInput5
      (by decide) (by decide)⟩

/-- C8 counterexample: start focus at 100, pause at 110, then invoke
start_break at 120 while Paused: the state is Break (not Paused) yet
pause_start_ts is 110, not 0 -- so not every public operation preserves
the invariant. -/
theorem pause_ts_invariant_counterexample :
    (run engine0 {} (staleTrace.take 3)).1.ctx.state = TimerState.BREAK
    ∧ (run engine0 {} (staleTrace.take 3)).1.ctx.pause_start_ts = 110
    ∧ ¬ PauseTsInv (run engine0 {} (staleTrace.take 3)).1 := by
  decide

/-- Settings under which a completed break should log once and restart
focus: auto_start_focus and log_breaks both enabled. -/
def c1World : World :=
  { settings :=
    { auto_start_break := true, auto_start_focus := true,
      log_breaks := true } }

/-- A mid-break engine state: a one-minute break of the category-7
session started at time 1000, 30 seconds shown remaining. -/
def c1BreakEngine : Engine :=
  { ctx := { state := TimerState.BREAK, remaining_seconds := 30,
             total_seconds := 60, current_group_id := some 7,
             focus_minutes := 1, break_minutes := 1,
             session_start_ts := 1000, pause_start_ts := 0,
             total_paused_seconds := 0 },
    state_before_pause := none, qt_timer_active := true,
    current_session_start := 1000, current_planned_seconds := 60 }

/-- C1: evaluating the scheduler tick that completes the break (at time
1060, 60 seconds after its start) under auto_start_focus and log_breaks:
the engine persists TWO records for that one break (the first Completed,
the second Interrupted, both is_break and both spanning 1000..1060) and
emits session_completed twice, because the restarting start_focus call
finds the state still Break and interrupts it again; the restart itself
does proceed into Focus with the same minutes and category. This
contradicts the claimed (and specified) single persisted record. -/
theorem break_completion_double_saves :
    ((on_tick c1BreakEngine c1World 1060).2.1.saved.map
        (fun s => (s.status, s.is_break, s.start_ts, s.end_ts)) =
      [("completed", true, 1000, 1060), ("interrupted", true, 1000, 1060)])
    ∧ ((on_tick c1BreakEngine c1World 1060).2.2.countP
        (fun ev => match ev with
          | Event.session_completed _ => true
          | _ => false) = 2)
    ∧ (on_tick c1BreakEngine c1World 1060).1.ctx.state = TimerState.FOCUS
    ∧ (on_tick c1BreakEngine c1World 1060).1.ctx.focus_minutes = 1
    ∧ (on_tick c1BreakEngine c1World 1060).1.ctx.break_minutes = 1
    ∧ (on_tick c1BreakEngine c1World 1060).1.ctx.current_group_id =
        some 7 := by
  decide

/-- Checks that every phase_changed notification in the list is
immediately followed by a tick notification. -/
def pc_then_tick : List Event → Bool
  | [] => true
  | Event.phase_changed _ _ :: rest =>
    (match rest with
      | Event.tick _ :: _ => true
      | _ => false) && pc_then_tick rest
  | _ :: rest => pc_then_tick rest

/-- Checks that a nonempty notification list ends with a tick. -/
def lastIsTick (l : List Event) : Bool :=
  match l.getLast? with
  | some (Event.tick _) => true
  | some _ => false
  | none => true

/-- C7 (amended): in every EXTERNAL command call each phase_changed is
immediately followed by a tick and the notification list ends with a
tick, so the tick for a transition fires after its phase_changed; the
scheduler-tick path, however, emits its tick FIRST (before any
phase_changed), and an internal completion that lands in Idle emits no
tick after the phase_changed. -/
theorem notification_order_external (e : Engine) (w : World) (now : Int)
    (f b : Int) (g : Option Int) :
    (pc_then_tick (start_focus e w now f b g).2.2 = true
      ∧ lastIsTick (start_focus e w now f b g).2.2 = true)
    ∧ (pc_then_tick (start_break e w now).2.2 = true
      ∧ lastIsTick (start_break e w now).2.2 = true)
    ∧ (pc_then_tick (pause e now).2 = true
      ∧ lastIsTick (pause e now).2 = true)
    ∧ (pc_then_tick (resume e now).2 = true
      ∧ lastIsTick (resume e now).2 = true)
    ∧ (pc_then_tick (stop e w now).2.2 = true
      ∧ lastIsTick (stop e w now).2.2 = true)
    ∧ (pc_then_tick (skip_break e w now).2.2 = true
      ∧ lastIsTick (skip_break e w now).2.2 = true)
    ∧ (pc_then_tick (cleanup e w now).2.2 = true
      ∧ lastIsTick (cleanup e w now).2.2 = true)
    ∧ ((on_tick e w now).2.2 = []
      ∨ ∃ c rest, (on_tick e w now).2.2 = Event.tick c :: rest) := by
  refine ⟨⟨?_, ?_⟩, ⟨?_, ?_⟩, ⟨?_, ?_⟩, ⟨?_, ?_⟩, ⟨?_, ?_⟩, ⟨?_, ?_⟩,
    ⟨?_, ?_⟩, ?_⟩ <;>
    simp only [start_focus, start_break, pause, resume, stop, skip_break,
      cleanup, stop_and_save, save_session, create_session, on_tick]
  case _ =>
    split_ifs <;> simp [pc_then_tick]
  case _ =>
    split_ifs <;> simp [lastIsTick]
  case _ =>
    split_ifs <;> simp [pc_then_tick]
  case _ =>
    split_ifs <;> simp [lastIsTick]
  case _ =>
    split_ifs <;> simp [pc_then_tick]
  case _ =>
    split_ifs <;> simp [lastIsTick]
  case _ =>
    cases e.ctx.state <;> cases e.state_before_pause <;>
      simp [pc_then_tick]
  case _ =>
    cases e.ctx.state <;> cases e.state_before_pause <;>
      simp [lastIsTick]
  case _ =>
    split_ifs <;> simp [pc_then_tick]
  case _ =>
    split_ifs <;> simp [lastIsTick]
  case _ =>
    split_ifs <;> simp [pc_then_tick]
  case _ =>
    split_ifs <;> simp [lastIsTick]
  case _ =>
    split_ifs <;> simp [pc_then_tick]
  case _ =>
    split_ifs <;> simp [lastIsTick]
  case _ =>
    split_ifs <;> simp

/-- Settings with auto_start_break disabled, so a completed focus phase
lands in Idle. -/
def c7World : World := { settings := { auto_start_break := false } }

/-- A mid-focus engine state for the C7 counterexample. -/
def c7FocusEngine : Engine :=
  { ctx := { state := TimerState.FOCUS, remaining_seconds := 30,
             total_seconds := 60, current_group_id := none,
             focus_minutes := 1, break_minutes := 1,
             session_start_ts := 1000, pause_start_ts := 0,
             total_paused_seconds := 0 },
    state_before_pause := none, qt_timer_active := true,
    current_session_start := 1000, current_planned_seconds := 60 }

/-- C7 counterexample: the scheduler tick at 1060 completes the focus
phase with auto_start_break off; the call emits both a tick and a
phase_changed, but the tick fires FIRST and no tick follows the
phase_changed into Idle. -/
theorem tick_before_phase_changed_counterexample :
    (on_tick c7FocusEngine c7World 1060).2.2 =
      [ Event.tick
          { state := TimerState.FOCUS, remaining_seconds := 0,
            total_seconds := 60, current_group_id := none,
            focus_minutes := 1, break_minutes := 1,
            session_start_ts := 1000, pause_start_ts := 0,
            total_paused_seconds := 0 },
        Event.session_completed
          { id := some 1, group_id := 0, start_ts := 1000, end_ts := 1060,
            planned_seconds := 60, actual_seconds := 60,
            status := "completed", is_break := false },
        Event.phase_changed TimerState.FOCUS TimerState.IDLE ]
    ∧ pc_then_tick (on_tick c7FocusEngine c7World 1060).2.2 = false
    ∧ lastIsTick (on_tick c7FocusEngine c7World 1060).2.2 = false := by
  decide

/-- C4: start_focus from any non-Idle state first stops and saves the
running session synchronously -- a focus session (active or remembered
behind a pause) is persisted with status interrupted, a break session
only when log_breaks is on -- and then performs the Idle-to-Focus
transition: total and remaining are focus_minutes times 60, the session
start is now, and no pause time is carried over. -/
theorem start_focus_interrupts (e : Engine) (w : World) (now : Int)
    (f b : Int) (g : Option Int) (h : e.ctx.state ≠ TimerState.IDLE) :
    ((start_focus e w now f b g).1.ctx.state = TimerState.FOCUS
      ∧ (start_focus e w now f b g).1.ctx.total_seconds = f * 60
      ∧ (start_focus e w now f b g).1.ctx.remaining_seconds = f * 60
      ∧ (start_focus e w now f b g).1.ctx.session_start_ts = now
      ∧ (start_focus e w now f b g).1.ctx.total_paused_seconds = 0)
    ∧ ((e.ctx.state = TimerState.FOCUS ∨
        (e.ctx.state = TimerState.PAUSED ∧
          e.state_before_pause = some TimerState.FOCUS)) →
        ∃ rec, (start_focus e w now f b g).2.1.saved = w.saved ++ [rec]
          ∧ rec.status = "interrupted" ∧ rec.is_break = false)
    ∧ ((e.ctx.state = TimerState.BREAK ∨
        (e.ctx.state = TimerState.PAUSED ∧
          e.state_before_pause = some TimerState.BREAK)) →
        (w.settings.log_breaks = true →
          ∃ rec, (start_focus e w now f b g).2.1.saved = w.saved ++ [rec]
            ∧ rec.status = "interrupted" ∧ rec.is_break = true)
        ∧ (w.settings.log_breaks = false →
          (start_focus e w now f b g).2.1.saved = w.saved)) := by
  refine ⟨?_, ?_, ?_⟩
  · simp [start_focus]
  · intro hFoc
    have hwf : (e.ctx.state == TimerState.FOCUS ||
        (e.ctx.state == TimerState.PAUSED &&
          e.state_before_pause == some TimerState.FOCUS)) = true := by
      rcases hFoc with hs | ⟨hs, hb⟩
      · simp [hs]
      · simp [hs, hb]
    simp only [start_focus]
    rw [if_pos h]
    simp only [stop_and_save, hwf, if_true, save_session, create_session]
    exact ⟨_, rfl, rfl, rfl⟩
  · intro hBr
    have hwf : (e.ctx.state == TimerState.FOCUS ||
        (e.ctx.state == TimerState.PAUSED &&
          e.state_before_pause == some TimerState.FOCUS)) = false := by
      rcases hBr with hs | ⟨hs, hb⟩
      · simp [hs]
      · simp [hs, hb]
    have hwb : (e.ctx.state == TimerState.BREAK ||
        (e.ctx.state == TimerState.PAUSED &&
          e.state_before_pause == some TimerState.BREAK)) = true := by
      rcases hBr with hs | ⟨hs, hb⟩
      · simp [hs]
      · simp [hs, hb]
    constructor
    · intro hl
      simp only [start_focus]
      rw [if_pos h]
      simp only [stop_and_save, hwf, hwb, if_true, if_false,
        Bool.false_eq_true, hl, save_session, create_session]
      exact ⟨_, rfl, rfl, rfl⟩
    · intro hl
      simp only [start_focus]
      rw [if_pos h]
      simp only [stop_and_save, hwf, hwb, if_true, if_false,
        Bool.false_eq_true, hl, save_session, create_session]

/-- C4 witness: starting a new 2/3-minute category-4 focus at time 2000
while the engine is mid-focus persists one interrupted non-break record
and installs the fresh focus context. -/
theorem start_focus_interrupts_witness :
    c7FocusEngine.ctx.state ≠ TimerState.IDLE
    ∧ (((start_focus c7FocusEngine {} 2000 2 3 (some 4)).1.ctx.state =
          TimerState.FOCUS
        ∧ (start_focus c7FocusEngine {} 2000 2 3 (some 4)).1.ctx.total_seconds
            = 2 * 60
        ∧ (start_focus c7FocusEngine {} 2000 2 3
            (some 4)).1.ctx.remaining_seconds = 2 * 60
        ∧ (start_focus c7FocusEngine {} 2000 2 3
            (some 4)).1.ctx.session_start_ts = 2000
        ∧ (start_focus c7FocusEngine {} 2000 2 3
            (some 4)).1.ctx.total_paused_seconds = 0)
      ∧ ((c7FocusEngine.ctx.state = TimerState.FOCUS ∨
          (c7FocusEngine.ctx.state = TimerState.PAUSED ∧
            c7FocusEngine.state_before_pause = some TimerState.FOCUS)) →
          ∃ rec, (start_focus c7FocusEngine {} 2000 2 3 (some 4)).2.1.saved =
              ({} : World).saved ++ [rec]
            ∧ rec.status = "interrupted" ∧ rec.is_break = false)
      ∧ ((c7FocusEngine.ctx.state = TimerState.BREAK ∨
          (c7FocusEngine.ctx.state = TimerState.PAUSED ∧
            c7FocusEngine.state_before_pause = some TimerState.BREAK)) →
          (({} : World).settings.log_breaks = true →
            ∃ rec, (start_focus c7FocusEngine {} 2000 2 3 (some 4)).2.1.saved
                = ({} : World).saved ++ [rec]
              ∧ rec.status = "interrupted" ∧ rec.is_break = true)
          ∧ (({} : World).settings.log_breaks = false →
            (start_focus c7FocusEngine {} 2000 2 3 (some 4)).2.1.saved =
              ({} : World).saved))) :=
  ⟨by decide,
    start_focus_interrupts c7FocusEngine {} 2000 2 3 (some 4) (by decide)⟩

/-- C5: pausing at tp and resuming at tr adds exactly tr - tp to
total_paused_seconds, and the remaining time recomputed at the next tick
equals what a tick at the pause-shifted instant would have computed on
the unpaused engine: the paused interval contributes nothing to elapsed
time. -/
theorem pause_resume_preserves_remaining (e : Engine) (w : World)
    (tp tr t2 : Int)
    (hs : e.ctx.state = TimerState.FOCUS ∨ e.ctx.state = TimerState.BREAK)
    (hrun : 0 < e.ctx.total_seconds -
      ((t2 - (tr - tp)) - e.ctx.session_start_ts -
        e.ctx.total_paused_seconds)) :
    (resume (pause e tp).1 tr).1.ctx.total_paused_seconds =
      e.ctx.total_paused_seconds + (tr - tp)
    ∧ (on_tick (resume (pause e tp).1 tr).1 w t2).1.ctx.remaining_seconds =
      (on_tick e w (t2 - (tr - tp))).1.ctx.remaining_seconds := by
  simp only [pause]
  rw [if_pos hs]
  simp only [resume]
  constructor
  · trivial
  · simp only [on_tick]
    rw [if_pos hs, if_pos hs]
    split_ifs <;> dsimp only <;> omega

/-- A mid-focus engine for the C5 witness: one minute planned, started
at time 100. -/
def c5Engine : Engine :=
  { ctx := { state := TimerState.FOCUS, remaining_seconds := 60,
             total_seconds := 60, current_group_id := none,
             focus_minutes := 1, break_minutes := 1,
             session_start_ts := 100, pause_start_ts := 0,
             total_paused_seconds := 0 },
    state_before_pause := none, qt_timer_active := true,
    current_session_start := 100, current_planned_seconds := 60 }

/-- C5 witness: pause at 110, resume at 125, tick at 130: the 15 paused
seconds are credited and the remaining time matches a tick at 115 on the
unpaused engine. -/
theorem pause_resume_preserves_remaining_witness :
    (c5Engine.ctx.state = TimerState.FOCUS ∨
      c5Engine.ctx.state = TimerState.BREAK)
    ∧ 0 < c5Engine.ctx.total_seconds -
        ((130 - (125 - 110)) - c5Engine.ctx.session_start_ts -
          c5Engine.ctx.total_paused_seconds)
    ∧ ((resume (pause c5Engine 110).1 125).1.ctx.total_paused_seconds =
        c5Engine.ctx.total_paused_seconds + (125 - 110)
      ∧ (on_tick (resume (pause c5Engine 110).1 125).1 {}
          130).1.ctx.remaining_seconds =
        (on_tick c5Engine {} (130 - (125 - 110))).1.ctx.remaining_seconds) :=
  ⟨by decide, by decide,
    pause_resume_preserves_remaining c5Engine {} 110 125 130
      (by decide) (by decide)⟩

/-- The inductive invariant behind C3, relative to a lower bound t on
the wall clock: remaining time is within bounds, the configured minutes
are at least one, accumulated pause time is nonnegative, the phase-start
bookkeeping is consistent with the clock, and the remembered pre-pause
phase can only be Focus or Break. -/
structure Inv (t : Int) (e : Engine) : Prop where
  total_nonneg : 0 ≤ e.ctx.total_seconds
  rem_nonneg : 0 ≤ e.ctx.remaining_seconds
  rem_le_total : e.ctx.remaining_seconds ≤ e.ctx.total_seconds
  focus_min : 1 ≤ e.ctx.focus_minutes
  break_min : 1 ≤ e.ctx.break_minutes
  paused_nonneg : 0 ≤ e.ctx.total_paused_seconds
  run_clock : e.ctx.state = TimerState.FOCUS ∨
      e.ctx.state = TimerState.BREAK →
    e.ctx.session_start_ts + e.ctx.total_paused_seconds ≤ t
  pause_clock : e.ctx.state = TimerState.PAUSED →
    e.ctx.session_start_ts + e.ctx.total_paused_seconds ≤
        e.ctx.pause_start_ts
      ∧ e.ctx.pause_start_ts ≤ t
  bp_ok : e.state_before_pause = none ∨
    e.state_before_pause = some TimerState.FOCUS ∨
    e.state_before_pause = some TimerState.BREAK

theorem inv_mono {t u : Int} {e : Engine} (h : Inv t e) (htu : t ≤ u) :
    Inv u e :=
  ⟨h.total_nonneg, h.rem_nonneg, h.rem_le_total, h.focus_min, h.break_min,
   h.paused_nonneg, fun hs => le_trans (h.run_clock hs) htu,
   fun hs => ⟨(h.pause_clock hs).1, le_trans (h.pause_clock hs).2 htu⟩,
   h.bp_ok⟩

theorem inv_qt {t : Int} {e : Engine} (h : Inv t e) (flag : Bool) :
    Inv t { e with qt_timer_active := flag } :=
  ⟨h.total_nonneg, h.rem_nonneg, h.rem_le_total, h.focus_min, h.break_min,
   h.paused_nonneg, h.run_clock, h.pause_clock, h.bp_ok⟩

theorem inv_reset {t : Int} (e : Engine) (hf : 1 ≤ e.ctx.focus_minutes)
    (hb : 1 ≤ e.ctx.break_minutes) : Inv t (reset_to_idle e) :=
  ⟨le_refl 0, le_refl 0, le_refl 0, hf, hb, le_refl 0,
   fun hs => by rcases hs with hs | hs <;> exact (nomatch hs),
   fun hs => (nomatch hs), Or.inl rfl⟩

theorem inv_stop_and_save {t : Int} (e : Engine) (w : World) (now : Int)
    (itr : Bool) (h : Inv t e) : Inv t (stop_and_save e w now itr).1 := by
  rw [stop_and_save_fst]
  exact inv_reset _ h.focus_min h.break_min

theorem inv_start_focus {t : Int} (e : Engine) (w : World) (now f b : Int)
    (g : Option Int) (h : Inv t e) (hf : 1 ≤ f) (hb : 1 ≤ b)
    (hnow : t ≤ now) : Inv now (start_focus e w now f b g).1 := by
  have hbp := h.bp_ok
  simp only [start_focus]
  split_ifs with hI
  · rw [stop_and_save_fst]
    exact ⟨by dsimp only; omega, by dsimp only; omega, le_refl _, hf, hb,
      le_refl 0, fun _ => by dsimp only; omega,
      fun hs => (nomatch hs), Or.inl rfl⟩
  · exact ⟨by dsimp only; omega, by dsimp only; omega, le_refl _, hf, hb,
      le_refl 0, fun _ => by dsimp only; omega,
      fun hs => (nomatch hs), hbp⟩

theorem inv_start_break {t : Int} (e : Engine) (w : World) (now : Int)
    (h : Inv t e) (hnow : t ≤ now) : Inv now (start_break e w now).1 := by
  have hf := h.focus_min
  have hb := h.break_min
  have hbp := h.bp_ok
  simp only [start_break]
  split_ifs with hF
  · rw [save_session_fst]
    exact ⟨by dsimp only; omega, by dsimp only; omega, le_refl _,
      hf, hb, le_refl 0, fun _ => by dsimp only; omega,
      fun hs => (nomatch hs), hbp⟩
  · exact ⟨by dsimp only; omega, by dsimp only; omega, le_refl _,
      hf, hb, le_refl 0, fun _ => by dsimp only; omega,
      fun hs => (nomatch hs), hbp⟩

theorem inv_pause {t : Int} (e : Engine) (now : Int) (h : Inv t e)
    (hnow : t ≤ now) : Inv now (pause e now).1 := by
  simp only [pause]
  split_ifs with hR
  · have hrc := h.run_clock hR
    refine ⟨h.total_nonneg, h.rem_nonneg, h.rem_le_total, h.focus_min,
      h.break_min, h.paused_nonneg, ?_, ?_, ?_⟩
    · intro hs
      rcases hs with hs | hs <;> exact nomatch hs
    · intro _
      constructor <;> (dsimp only; omega)
    · rcases hR with hs | hs <;> rw [hs] <;> simp
  · exact inv_mono h hnow

theorem inv_resume {t : Int} (e : Engine) (now : Int) (h : Inv t e)
    (hnow : t ≤ now) : Inv now (resume e now).1 := by
  unfold resume
  cases hs : e.ctx.state with
  | PAUSED =>
    cases hb : e.state_before_pause with
    | none => exact inv_mono h hnow
    | some val =>
      dsimp only
      have hval := h.bp_ok
      rw [hb] at hval
      simp at hval
      obtain ⟨hpc1, hpc2⟩ := h.pause_clock hs
      have hp0 := h.paused_nonneg
      refine ⟨h.total_nonneg, h.rem_nonneg, h.rem_le_total, h.focus_min,
        h.break_min, ?_, ?_, ?_, Or.inl rfl⟩
      · dsimp only
        omega
      · intro _
        dsimp only
        omega
      · intro hsp
        rcases hval with h0 | h0 <;> rw [h0] at hsp <;>
          exact nomatch hsp
  | IDLE => cases e.state_before_pause <;> exact inv_mono h hnow
  | FOCUS => cases e.state_before_pause <;> exact inv_mono h hnow
  | BREAK => cases e.state_before_pause <;> exact inv_mono h hnow

theorem inv_on_phase_complete {t : Int} (e : Engine) (w : World)
    (now : Int) (h : Inv t e) (hnow : t ≤ now) :
    Inv now (on_phase_complete e w now).1 := by
  have h0 : Inv t { e with qt_timer_active := false } := inv_qt h false
  simp only [on_phase_complete]
  split_ifs <;>
    first
      | exact inv_start_break _ _ _ h0 hnow
      | exact inv_start_focus _ _ _ _ _ _ h0 h0.focus_min h0.break_min hnow
      | exact inv_reset _ h0.focus_min h0.break_min
      | exact inv_mono h0 hnow

/-- Starting a break leaves the engine at the start of a fresh break
phase whose planned time comes from the configured break minutes. -/
theorem start_break_fresh (e : Engine) (w : World) (now : Int) :
    (start_break e w now).1.ctx.remaining_seconds =
      (start_break e w now).1.ctx.total_seconds
    ∧ (start_break e w now).1.ctx.session_start_ts = now
    ∧ (start_break e w now).1.ctx.total_paused_seconds = 0
    ∧ (start_break e w now).1.ctx.total_seconds =
        e.ctx.break_minutes * 60 := by
  simp only [start_break]
  split_ifs <;> exact ⟨trivial, trivial, trivial, rfl⟩

/-- Starting focus leaves the engine at the start of a fresh focus
phase whose planned time is the passed focus minutes. -/
theorem start_focus_fresh (e : Engine) (w : World) (now f b : Int)
    (g : Option Int) :
    (start_focus e w now f b g).1.ctx.remaining_seconds =
      (start_focus e w now f b g).1.ctx.total_seconds
    ∧ (start_focus e w now f b g).1.ctx.session_start_ts = now
    ∧ (start_focus e w now f b g).1.ctx.total_paused_seconds = 0
    ∧ (start_focus e w now f b g).1.ctx.total_seconds = f * 60 := by
  simp only [start_focus]
  exact ⟨trivial, trivial, trivial, trivial⟩

/-- After a phase completion the engine is Idle or stands at the start
of a fresh phase: if it is in Focus or Break then remaining equals the
(nonnegative) total, the phase started at now and no pause time is
carried. -/
theorem on_phase_complete_fresh {t : Int} (e : Engine) (w : World)
    (now : Int) (h : Inv t e) :
    ((on_phase_complete e w now).1.ctx.state = TimerState.FOCUS ∨
      (on_phase_complete e w now).1.ctx.state = TimerState.BREAK) →
    (on_phase_complete e w now).1.ctx.remaining_seconds =
      (on_phase_complete e w now).1.ctx.total_seconds
    ∧ (on_phase_complete e w now).1.ctx.session_start_ts = now
    ∧ (on_phase_complete e w now).1.ctx.total_paused_seconds = 0
    ∧ 0 ≤ (on_phase_complete e w now).1.ctx.total_seconds := by
  have hf := h.focus_min
  have hb := h.break_min
  simp only [on_phase_complete]
  split_ifs <;> (try dsimp only) <;> intro hfb <;>
    first
      | (rcases hfb with hx | hx <;>
          exact absurd hx (by simp [reset_to_idle]))
      | (refine ⟨(start_break_fresh _ _ _).1, (start_break_fresh _ _ _).2.1,
          (start_break_fresh _ _ _).2.2.1, ?_⟩
         rw [(start_break_fresh _ _ _).2.2.2]
         try rw [save_session_fst]
         try dsimp only
         omega)
      | (refine ⟨(start_focus_fresh _ _ _ _ _ _).1,
          (start_focus_fresh _ _ _ _ _ _).2.1,
          (start_focus_fresh _ _ _ _ _ _).2.2.1, ?_⟩
         rw [(start_focus_fresh _ _ _ _ _ _).2.2.2]
         try rw [save_session_fst]
         try dsimp only
         omega)
      | (rcases hfb with hx | hx <;> exact absurd hx (by assumption))

/-- The completion formula: right after a phase completion at instant
now, a Focus or Break context shows remaining equal to the clamped
timestamp formula evaluated at now. -/
theorem on_phase_complete_formula {e1 : Engine} (w : World) (now : Int)
    (h1 : Inv now e1) :
    ((on_phase_complete e1 w now).1.ctx.state = TimerState.FOCUS ∨
      (on_phase_complete e1 w now).1.ctx.state = TimerState.BREAK) →
    (on_phase_complete e1 w now).1.ctx.remaining_seconds =
      max 0 ((on_phase_complete e1 w now).1.ctx.total_seconds -
        (now - (on_phase_complete e1 w now).1.ctx.session_start_ts -
          (on_phase_complete e1 w now).1.ctx.total_paused_seconds)) := by
  intro hfb
  obtain ⟨h2, h3, h4, h5⟩ := on_phase_complete_fresh _ _ _ h1 hfb
  rw [h2, h3, h4]
  omega

/-- The scheduler tick preserves the invariant, and afterwards, while in
Focus or Break, remaining equals the clamped timestamp formula at the
current instant. -/
theorem inv_on_tick {t : Int} (e : Engine) (w : World) (now : Int)
    (h : Inv t e) (hnow : t ≤ now) :
    Inv now (on_tick e w now).1
    ∧ (((on_tick e w now).1.ctx.state = TimerState.FOCUS ∨
        (on_tick e w now).1.ctx.state = TimerState.BREAK) →
      (on_tick e w now).1.ctx.remaining_seconds =
        max 0 ((on_tick e w now).1.ctx.total_seconds -
          (now - (on_tick e w now).1.ctx.session_start_ts -
            (on_tick e w now).1.ctx.total_paused_seconds))) := by
  simp only [on_tick]
  split_ifs with hR hZ
  · have hrc := h.run_clock hR
    have h1 : Inv now
        { e with ctx := { e.ctx with
            remaining_seconds := max 0 (e.ctx.total_seconds -
              (now - e.ctx.session_start_ts -
                e.ctx.total_paused_seconds)) } } := by
      have htn := h.total_nonneg
      refine ⟨htn, by dsimp only; omega, by dsimp only; omega,
        h.focus_min, h.break_min, h.paused_nonneg, ?_, ?_, h.bp_ok⟩
      · intro hs
        exact le_trans (h.run_clock hs) hnow
      · intro hs
        exact ⟨(h.pause_clock hs).1,
          le_trans (h.pause_clock hs).2 hnow⟩
    constructor
    · exact inv_on_phase_complete _ _ _ h1 (le_refl now)
    · exact on_phase_complete_formula _ _ h1
  · have hrc := h.run_clock hR
    have htn := h.total_nonneg
    refine ⟨⟨htn, by dsimp only; omega, by dsimp only; omega,
      h.focus_min, h.break_min, h.paused_nonneg, ?_, ?_, h.bp_ok⟩, ?_⟩
    · intro hs
      exact le_trans (h.run_clock hs) hnow
    · intro hs
      exact ⟨(h.pause_clock hs).1, le_trans (h.pause_clock hs).2 hnow⟩
    · intro _
      rfl
  · refine ⟨inv_mono h hnow, ?_⟩
    intro hfb
    exact absurd hfb hR

/-- Each well-formed input preserves the invariant, moving the clock
bound to the input instant. -/
theorem step_inv {t : Int} (e : Engine) (w : World) (i : Input)
    (h : Inv t e) (hv : ValidCmd i.cmd) (hnow : t ≤ i.now) :
    Inv i.now (step e w i).1 := by
  cases hc : i.cmd with
  | start_focus f b g =>
    rw [hc] at hv
    simp only [step, hc]
    exact inv_start_focus _ _ _ _ _ _ h hv.1 hv.2 hnow
  | start_break =>
    simp only [step, hc]
    exact inv_start_break _ _ _ h hnow
  | pause =>
    simp only [step, hc]
    exact inv_pause _ _ h hnow
  | resume =>
    simp only [step, hc]
    exact inv_resume _ _ h hnow
  | stop =>
    simp only [step, hc, stop]
    split_ifs
    · exact inv_mono h hnow
    · exact inv_mono (inv_stop_and_save _ _ _ _ h) hnow
  | skip_break =>
    simp only [step, hc, skip_break]
    split_ifs <;>
      first
        | exact inv_mono h hnow
        | exact inv_reset _ h.focus_min h.break_min
  | cleanup =>
    simp only [step, hc, cleanup]
    split_ifs
    · exact inv_qt (inv_mono (inv_stop_and_save _ _ _ _ h) hnow) false
    · exact inv_qt (inv_mono h hnow) false
  | tick =>
    simp only [step, hc]
    exact (inv_on_tick _ _ _ h hnow).1

/-- Running a chronological trace of well-formed inputs preserves the
invariant up to the final clock bound. -/
theorem run_inv {t : Int} (is : List Input) (e : Engine) (w : World)
    (h : Inv t e) (hch : chron t is) (hv : ∀ j ∈ is, ValidCmd j.cmd) :
    Inv (lastTime t is) (run e w is).1 := by
  induction is generalizing t e w with
  | nil => exact h
  | cons i rest ih =>
    obtain ⟨h1, h2⟩ := hch
    simp only [run, lastTime]
    exact ih _ _
      (step_inv _ _ _ h (hv i (by simp)) h1) h2
      (fun j hj => hv j (by simp [hj]))

theorem run_append (e : Engine) (w : World) (xs ys : List Input) :
    run e w (xs ++ ys) =
      ((run (run e w xs).1 (run e w xs).2.1 ys).1,
       (run (run e w xs).1 (run e w xs).2.1 ys).2.1,
       (run e w xs).2.2 ++ (run (run e w xs).1 (run e w xs).2.1 ys).2.2) := by
  induction xs generalizing e w with
  | nil => simp [run]
  | cons x xs ih =>
    simp only [List.cons_append, run, List.append_eq, ih, List.append_assoc]

/-- Splitting a chronological trace around one input gives a
chronological prefix whose final bound is at most the input instant. -/
theorem chron_split (t : Int) (xs : List Input) (i : Input)
    (ys : List Input) (h : chron t (xs ++ i :: ys)) :
    chron t xs ∧ lastTime t xs ≤ i.now := by
  induction xs generalizing t with
  | nil => exact ⟨trivial, h.1⟩
  | cons x xs ih =>
    obtain ⟨h1, h2⟩ := h
    obtain ⟨h3, h4⟩ := ih x.now h2
    exact ⟨⟨h1, h3⟩, h4⟩

theorem inv_engine0 (t : Int) : Inv t engine0 :=
  ⟨le_refl 0, le_refl 0, le_refl 0, by decide, by decide, le_refl 0,
   fun hs => by rcases hs with hs | hs <;> exact (nomatch hs),
   fun hs => (nomatch hs), Or.inl rfl⟩

/-- C3: over every chronological sequence of well-formed external
commands and scheduler ticks from the fresh engine, after a tick the
context satisfies 0 ≤ remaining ≤ total; if it is then in Focus or
Break, remaining equals max 0 (total - (now - session_start_ts -
total_paused_seconds)) at the tick instant; and a tick arriving while
Paused changes nothing and emits nothing (remaining is frozen). -/
theorem remaining_bounds_after_tick (t0 : Int) (w0 : World)
    (pre : List Input) (i : Input) (post : List Input)
    (hcmd : i.cmd = Cmd.tick)
    (hch : chron t0 (pre ++ i :: post))
    (hval : ∀ j ∈ pre ++ i :: post, ValidCmd j.cmd) :
    (0 ≤ (run engine0 w0 (pre ++ [i])).1.ctx.remaining_seconds
      ∧ (run engine0 w0 (pre ++ [i])).1.ctx.remaining_seconds ≤
        (run engine0 w0 (pre ++ [i])).1.ctx.total_seconds)
    ∧ (((run engine0 w0 (pre ++ [i])).1.ctx.state = TimerState.FOCUS ∨
        (run engine0 w0 (pre ++ [i])).1.ctx.state = TimerState.BREAK) →
      (run engine0 w0 (pre ++ [i])).1.ctx.remaining_seconds =
        max 0 ((run engine0 w0 (pre ++ [i])).1.ctx.total_seconds -
          (i.now - (run engine0 w0 (pre ++ [i])).1.ctx.session_start_ts -
            (run engine0 w0 (pre ++ [i])).1.ctx.total_paused_seconds)))
    ∧ ((run engine0 w0 pre).1.ctx.state = TimerState.PAUSED →
      (run engine0 w0 (pre ++ [i])).1 = (run engine0 w0 pre).1
      ∧ (run engine0 w0 (pre ++ [i])).2.2 = (run engine0 w0 pre).2.2) := by
  obtain ⟨hch1, hle⟩ := chron_split t0 pre i post hch
  have hpreval : ∀ j ∈ pre, ValidCmd j.cmd := fun j hj =>
    hval j (by simp [hj])
  have hInv := run_inv pre engine0 w0 (inv_engine0 t0) hch1 hpreval
  have hra := run_append engine0 w0 pre [i]
  have hstep : (run engine0 w0 (pre ++ [i])).1 =
      (step (run engine0 w0 pre).1 (run engine0 w0 pre).2.1 i).1 := by
    rw [hra]
    rfl
  have hev : (run engine0 w0 (pre ++ [i])).2.2 =
      (run engine0 w0 pre).2.2 ++
        (step (run engine0 w0 pre).1 (run engine0 w0 pre).2.1 i).2.2 := by
    rw [hra]
    simp [run]
  have htick := inv_on_tick (run engine0 w0 pre).1
    { (run engine0 w0 pre).2.1 with settings := i.settings } i.now hInv hle
  have hstep2 : (step (run engine0 w0 pre).1 (run engine0 w0 pre).2.1 i) =
      on_tick (run engine0 w0 pre).1
        { (run engine0 w0 pre).2.1 with settings := i.settings } i.now := by
    simp only [step, hcmd]
  refine ⟨?_, ?_, ?_⟩
  · rw [hstep, hstep2]
    exact ⟨htick.1.rem_nonneg, htick.1.rem_le_total⟩
  · rw [hstep, hstep2]
    exact htick.2
  · intro hP
    have hnoop : on_tick (run engine0 w0 pre).1
        { (run engine0 w0 pre).2.1 with settings := i.settings } i.now =
        ((run engine0 w0 pre).1,
          { (run engine0 w0 pre).2.1 with settings := i.settings }, []) := by
      simp only [on_tick]
      rw [if_neg]
      rw [hP]
      decide
    constructor
    · rw [hstep, hstep2, hnoop]
    · rw [hev, hstep2, hnoop]
      simp

/-- A one-command prefix for the C3 witness: a one-minute focus starts
at time 100. -/
def c3Pre : List Input :=
  [{ now := 100, settings := {}, cmd := Cmd.start_focus 1 1 none }]

/-- The C3 witness tick, arriving at time 130. -/
def c3Tick : Input := { now := 130, settings := {}, cmd := Cmd.tick }

/-- C3 witness: after the tick at 130, thirty seconds remain of the
sixty planned, matching the timestamp formula, and the bounds hold. -/
theorem remaining_bounds_after_tick_witness :
    (c3Tick.cmd = Cmd.tick
      ∧ chron 0 (c3Pre ++ c3Tick :: [])
      ∧ ∀ j ∈ c3Pre ++ c3Tick :: [], ValidCmd j.cmd)
    ∧ ((0 ≤ (run engine0 {} (c3Pre ++ [c3Tick])).1.ctx.remaining_seconds
        ∧ (run engine0 {} (c3Pre ++ [c3Tick])).1.ctx.remaining_seconds ≤
          (run engine0 {} (c3Pre ++ [c3Tick])).1.ctx.total_seconds)
      ∧ (((run engine0 {} (c3Pre ++ [c3Tick])).1.ctx.state =
            TimerState.FOCUS ∨
          (run engine0 {} (c3Pre ++ [c3Tick])).1.ctx.state =
            TimerState.BREAK) →
        (run engine0 {} (c3Pre ++ [c3Tick])).1.ctx.remaining_seconds =
          max 0 ((run engine0 {} (c3Pre ++ [c3Tick])).1.ctx.total_seconds -
            (c3Tick.now -
              (run engine0 {} (c3Pre ++ [c3Tick])).1.ctx.session_start_ts -
              (run engine0 {}
                (c3Pre ++ [c3Tick])).1.ctx.total_paused_seconds)))
      ∧ ((run engine0 {} c3Pre).1.ctx.state = TimerState.PAUSED →
        (run engine0 {} (c3Pre ++ [c3Tick])).1 = (run engine0 {} c3Pre).1
        ∧ (run engine0 {} (c3Pre ++ [c3Tick])).2.2 =
            (run engine0 {} c3Pre).2.2)) :=
  ⟨⟨rfl, by decide, by decide⟩,
    remaining_bounds_after_tick 0 {} c3Pre c3Tick [] rfl
      (by decide) (by decide)⟩

end FocusTimer
